import Mathlib

/-!
# go-oauth2-firestore: token store over a Firestore collection

A shallow embedding of `token-store.go` and `database.go`.

* The Go values (`models.Token`, `oauth2.TokenInfo`, `context.Context`, errors) are
  plain Lean data. An `oauth2.TokenInfo` is any implementation of the interface: the
  `*models.Token` of go-oauth2, or a value of another dynamic type, given by what
  `reflect` and its methods show of it.
* A call that panics is a call whose error is `Error.panic`; the state next to it is
  the state the panic leaves.
* The Firestore client is the state: a map from collection names to collections of
  documents.  Every method of `database` and `tokenStore` takes the state it runs in
  and returns the state it leaves, next to its Go results.
* What the environment decides during one call (the clock, how long the backing store
  takes, whether it reports an error, the identifier drawn for a new document) is an
  explicit argument `Env`.
* `d.mu` serialises the calls on one instance; the embedding is sequential, one call
  at a time, so the lock has no counterpart.
-/

namespace Oauth2Firestore

/-! ## Go values -/

/-- Go `time.Duration`: a signed count of nanoseconds. -/
abbrev Duration := Int

/-- An instant on the clock of the process, in nanoseconds; deadlines are instants. The
count is unbounded: no clock reading or deadline is taken near the ends of `int64`. -/
abbrev Instant := Int

/-- Go `time.Time` as the struct `reflect.DeepEqual` sees: the two clock words and the
location (by name; absent for the nil location). -/
structure Time where
  wall : Nat
  ext : Int
  loc : Option String
deriving DecidableEq

/-- The zero value `time.Time{}`. -/
def Time.zero : Time := { wall := 0, ext := 0, loc := none }

/-- The flag `hasMonotonic`, the top bit of the 64-bit word `wall`: the time carries a
monotonic clock reading (in `ext`). -/
def Time.hasMonotonic (t : Time) : Bool := decide (t.wall / 9223372036854775808 % 2 = 1)

/-- Go `t.nsec()`: the nanoseconds within the second, the low 30 bits of `wall`. -/
def Time.nsec (t : Time) : Nat := t.wall % 1073741824

/-- The constant `wallToInternal`: seconds from year 1 to year 1885. -/
def wallToInternal : Int := 59453308800

/-- The constant `unixToInternal`: seconds from year 1 to 1970. -/
def unixToInternal : Int := 62135596800

/-- Go `t.sec()`: seconds since year 1, from the 33-bit field of `wall` when the time
has a monotonic reading, else from `ext`. -/
def Time.sec (t : Time) : Int :=
  if t.hasMonotonic then wallToInternal + ((t.wall % 9223372036854775808 / 1073741824 : Nat) : Int)
  else t.ext

/-- The instant of the time in microseconds since 1970, rounded down. -/
def Time.unixMicro (t : Time) : Int :=
  (t.sec - unixToInternal) * 1000000 + ((t.nsec / 1000 : Nat) : Int)

/-- The `time.Time` that comes back from the store for a time written to it. The client
writes the instant as seconds and nanoseconds (`timestamppb.New`), the store keeps
timestamps to the microsecond, rounding down, and the client reads the instant back with
`time.Unix(sec, nsec).UTC()`: no monotonic reading, the nil location. -/
def Time.stored (t : Time) : Time :=
  { wall := t.nsec / 1000 * 1000, ext := t.sec, loc := none }

/-- The struct `models.Token` of go-oauth2, with the fifteen fields that `token`
fills in. -/
structure Token where
  ClientID : String
  UserID : String
  RedirectURI : String
  Scope : String
  Code : String
  CodeCreateAt : Time
  CodeExpiresIn : Duration
  CodeChallenge : String
  CodeChallengeMethod : String
  Access : String
  AccessCreateAt : Time
  AccessExpiresIn : Duration
  Refresh : String
  RefreshCreateAt : Time
  RefreshExpiresIn : Duration
deriving DecidableEq

/-- The value `models.NewToken()` points to: `&Token{}`, every field zero. -/
def NewToken : Token :=
  { ClientID := "", UserID := "", RedirectURI := "", Scope := "", Code := "",
    CodeCreateAt := Time.zero, CodeExpiresIn := 0, CodeChallenge := "",
    CodeChallengeMethod := "", Access := "", AccessCreateAt := Time.zero,
    AccessExpiresIn := 0, Refresh := "", RefreshCreateAt := Time.zero,
    RefreshExpiresIn := 0 }

/-- Every field of the struct holds the zero value of its type. -/
def Token.allFieldsZero (t : Token) : Prop :=
  t.ClientID = "" ∧ t.UserID = "" ∧ t.RedirectURI = "" ∧ t.Scope = "" ∧ t.Code = "" ∧
  t.CodeCreateAt = Time.zero ∧ t.CodeExpiresIn = 0 ∧ t.CodeChallenge = "" ∧
  t.CodeChallengeMethod = "" ∧ t.Access = "" ∧ t.AccessCreateAt = Time.zero ∧
  t.AccessExpiresIn = 0 ∧ t.Refresh = "" ∧ t.RefreshCreateAt = Time.zero ∧
  t.RefreshExpiresIn = 0

instance (t : Token) : Decidable t.allFieldsZero := by
  unfold Token.allFieldsZero
  exact inferInstance

/-- The token as it comes back from the store: the three times as the store keeps them,
the strings and durations as they are. -/
def Token.stored (t : Token) : Token :=
  { t with CodeCreateAt := t.CodeCreateAt.stored
           AccessCreateAt := t.AccessCreateAt.stored
           RefreshCreateAt := t.RefreshCreateAt.stored }

/-- The kind `reflect` gives the dynamic type of an interface value. `Basic` stands for
the kinds of numbers, strings and booleans. -/
inductive Kind where
  | Ptr
  | Map
  | Slice
  | Func
  | Chan
  | Struct
  | Array
  | Basic
deriving DecidableEq

/-- The kinds on which `reflect.Value.IsNil` is defined; on the others it panics. -/
def Kind.nilable : Kind → Bool
  | .Ptr => true
  | .Map => true
  | .Slice => true
  | .Func => true
  | .Chan => true
  | _ => false

/-- The content of a Go value as `reflect.DeepEqual` walks it: `nil` for a nil pointer,
map, slice, func or chan, `ptrTo` for a pointer that is not nil, `token` for a
`models.Token` struct, `unit` and `pair` for the fields of any other struct in order. -/
inductive GoData where
  | nil
  | str (s : String)
  | int (n : Int)
  | time (t : Time)
  | token (t : Token)
  | ptrTo (target : GoData)
  | unit
  | pair (first rest : GoData)
deriving DecidableEq

/-- A value of a dynamic type other than `*models.Token` that implements
`oauth2.TokenInfo`, by what the code can see of it. -/
structure Foreign where
  /-- The dynamic type, by name. -/
  typ : String
  /-- The kind of the dynamic type. -/
  kind : Kind
  /-- The content of the value. -/
  data : GoData
  /-- The dynamic type and content of the value its method `New` returns; absent when
  `New` returns the nil interface. -/
  new : Option (String × GoData)
  /-- What its fifteen accessors return, as the fields of a record; absent when an
  accessor panics. -/
  get : Option Token
deriving DecidableEq

/-- An interface value of type `oauth2.TokenInfo`: the nil interface, a nil
`*models.Token` inside the interface, a pointer to a `models.Token` struct, or a value
of another dynamic type. -/
inductive TokenInfo where
  | nil
  | nilPtr
  | ptr (t : Token)
  | other (v : Foreign)
deriving DecidableEq

/-- The two errors a done `context.Context` reports. -/
inductive CtxErr where
  | Canceled
  | DeadlineExceeded
deriving DecidableEq

/-- The error values that reach the caller. `Done` is `iterator.Done`; `backend` is any
error the backing store or its client reports, by its status text. `panic` is no error
value of Go: it marks a call that panics instead of returning. -/
inductive Error where
  | ErrTokenNotFound
  | ErrInvalidTokenInfo
  | Done
  | ctx (e : CtxErr)
  | backend (status : String)
  | panic (msg : String)
deriving DecidableEq

instance {ε α : Type} [DecidableEq ε] [DecidableEq α] : DecidableEq (Except ε α) :=
  fun a b =>
    match a, b with
    | .ok x, .ok y =>
      if h : x = y then isTrue (congrArg Except.ok h)
      else isFalse (fun e => h (Except.ok.inj e))
    | .error x, .error y =>
      if h : x = y then isTrue (congrArg Except.error h)
      else isFalse (fun e => h (Except.error.inj e))
    | .ok _, .error _ => isFalse (fun e => Except.noConfusion e)
    | .error _, .ok _ => isFalse (fun e => Except.noConfusion e)

/-- A `context.Context`: its deadline, when it has one, and `ctx.Err()`. -/
structure Context where
  deadline : Option Instant
  err : Option CtxErr
deriving DecidableEq

/-- The root context `context.Background()`: no deadline, never done. -/
def Background : Context := { deadline := none, err := none }

/-- A context derived by `context.WithDeadline(parent, d)` at clock reading `now`.
A parent deadline earlier than `d` is kept (Go returns `WithCancel(parent)`); a parent
that is done already hands its error down; a deadline that has passed makes the child
done with `DeadlineExceeded` at once. -/
def WithDeadline (parent : Context) (now d : Instant) : Context :=
  let child : Context :=
    { deadline := some d
      err := match parent.err with
        | some e => some e
        | none => if d - now ≤ 0 then some CtxErr.DeadlineExceeded else none }
  match parent.deadline with
  | some cur => if cur < d then parent else child
  | none => child

/-- A context derived by `context.WithTimeout(parent, timeout)`, which is
`WithDeadline(parent, time.Now().Add(timeout))`. -/
def WithTimeout (parent : Context) (now : Instant) (timeout : Duration) : Context :=
  WithDeadline parent now (now + timeout)

/-! ## The backing store -/

/-- A value a query compares a field with (`val interface{}`), and the value a stored
field holds: a string, a timestamp (written as the `time.Time` it reads back as) or an
integer (durations are stored as integers). -/
inductive Value where
  | str (s : String)
  | time (t : Time)
  | int (n : Int)
deriving DecidableEq

/-- The stored field of a token document by name. The struct has no `firestore` tags, so
each field is stored under its Go name, empty strings and zero values included. -/
def Token.field (t : Token) (key : String) : Option Value :=
  if key = "ClientID" then some (.str t.ClientID)
  else if key = "UserID" then some (.str t.UserID)
  else if key = "RedirectURI" then some (.str t.RedirectURI)
  else if key = "Scope" then some (.str t.Scope)
  else if key = "Code" then some (.str t.Code)
  else if key = "CodeCreateAt" then some (.time t.CodeCreateAt)
  else if key = "CodeExpiresIn" then some (.int t.CodeExpiresIn)
  else if key = "CodeChallenge" then some (.str t.CodeChallenge)
  else if key = "CodeChallengeMethod" then some (.str t.CodeChallengeMethod)
  else if key = "Access" then some (.str t.Access)
  else if key = "AccessCreateAt" then some (.time t.AccessCreateAt)
  else if key = "AccessExpiresIn" then some (.int t.AccessExpiresIn)
  else if key = "Refresh" then some (.str t.Refresh)
  else if key = "RefreshCreateAt" then some (.time t.RefreshCreateAt)
  else if key = "RefreshExpiresIn" then some (.int t.RefreshExpiresIn)
  else none

/-- A reference to a document: the collection it lives in and its identifier. -/
structure DocumentRef where
  collection : String
  ID : String
deriving DecidableEq

/-- Why `DataTo` fails on a document: the status of the error, and the struct as
`DataTo` had filled it in when it stopped. -/
structure Broken where
  status : String
  filled : Token
deriving DecidableEq

/-- A stored document: its store-assigned identifier, the fifteen fields it holds under
the names of `models.Token`, and, for a document that was not written from the struct
and holds something the struct cannot take (a value of another type under a name that
matches a struct field by case folding), the failure of `DataTo` on it. -/
structure Doc where
  ID : String
  data : Token
  broken : Option Broken := none
deriving DecidableEq

/-- A collection: its documents in the order a query without `OrderBy` yields them
(ascending identifier), no two under the same identifier. -/
structure Collection where
  docs : List Doc
  nodup : (docs.map Doc.ID).Nodup

/-- The state behind a `*firestore.Client`: the collection under each name. -/
abbrev Client := String → Collection

/-- What the environment decides during one call of the adapter. -/
structure Env where
  /-- The clock reading `time.Now()` when the call starts. -/
  now : Instant
  /-- How long the backing store takes to answer. -/
  elapsed : Nat
  /-- The error the backing store reports (connectivity, permission), if any. -/
  fault : Option String
  /-- The identifier `NewDoc` draws for a document that `Add` creates. -/
  newID : String

/-- The outcome of one round trip to the backing store under `ctx`: the error of a
context that is done, `DeadlineExceeded` when the answer does not arrive before the
deadline, else the error the store reports, else none. -/
def roundTrip (ctx : Context) (env : Env) : Option Error :=
  match ctx.err with
  | some e => some (Error.ctx e)
  | none =>
    match ctx.deadline with
    | some dl =>
      if dl ≤ env.now + env.elapsed then some (Error.ctx CtxErr.DeadlineExceeded)
      else env.fault.map Error.backend
    | none => env.fault.map Error.backend

/-- A query: the collection it reads, its equality filters and its limit. -/
structure Query where
  collection : String
  filters : List (String × Value)
  limit : Option Nat

/-- The query over a whole collection, `client.Collection(name)`. -/
def Client.Collection (_c : Client) (name : String) : Query :=
  { collection := name, filters := [], limit := none }

/-- The query narrowed by `Where(key, "==", val)`. -/
def Query.Where (q : Query) (key : String) (val : Value) : Query :=
  { q with filters := q.filters ++ [(key, val)] }

/-- The query narrowed by `Limit(n)`. -/
def Query.Limit (q : Query) (n : Nat) : Query :=
  { q with limit := some n }

/-- A document satisfies the query when each filtered field is stored and equal to the
value asked for. -/
def Query.satisfiedBy (q : Query) (doc : Doc) : Bool :=
  q.filters.all (fun f => decide (doc.data.field f.1 = some f.2))

/-- The documents a query yields on a state of the store, in collection order. -/
def Query.run (q : Query) (c : Client) : List Doc :=
  let found := (c q.collection).docs.filter q.satisfiedBy
  match q.limit with
  | some n => found.take n
  | none => found

/-- A `*firestore.DocumentIterator`: the error of the read, or the documents to yield. -/
structure DocumentIterator where
  err : Option Error
  docs : List Doc

/-- The iterator of `query.Documents(ctx)`: one round trip to the store under `ctx`. -/
def Query.Documents (q : Query) (c : Client) (ctx : Context) (env : Env) :
    DocumentIterator :=
  match roundTrip ctx env with
  | some e => { err := some e, docs := [] }
  | none => { err := none, docs := q.run c }

/-- The first `iter.Next()`: the error of the read, `iterator.Done` when nothing is
left, else the next document. -/
def DocumentIterator.Next (iter : DocumentIterator) : Except Error Doc :=
  match iter.err with
  | some e => .error e
  | none =>
    match iter.docs with
    | [] => .error Error.Done
    | doc :: _ => .ok doc

/-- The reference `doc.Ref` of a document read from `collection`. -/
def Doc.Ref (doc : Doc) (collection : String) : DocumentRef :=
  { collection := collection, ID := doc.ID }

/-- The struct `doc.DataTo(info)` fills in, and its error: the stored fields, times as
they read back from the store; on a document `DataTo` fails on, what it had filled in
when it stopped, and the error. -/
def Doc.DataTo (doc : Doc) : Token × Option Error :=
  match doc.broken with
  | none => (doc.data.stored, none)
  | some b => (b.filled, some (Error.backend b.status))

/-- Order of the documents of a collection: ascending identifier, character by
character. -/
def Doc.le (a b : Doc) : Prop := ¬ b.ID.data < a.ID.data

instance : DecidableRel Doc.le := fun a b => by
  unfold Doc.le
  exact inferInstance

/-- The collection with one more document, at its place in identifier order. -/
def Collection.insert (col : Collection) (doc : Doc)
    (hnew : doc.ID ∉ col.docs.map Doc.ID) : Collection :=
  { docs := col.docs.orderedInsert Doc.le doc
    nodup :=
      ((List.perm_orderedInsert Doc.le doc col.docs).map Doc.ID).nodup_iff.mpr
        (List.nodup_cons.mpr ⟨hnew, col.nodup⟩) }

/-- The collection without the document under identifier `id`. -/
def Collection.remove (col : Collection) (id : String) : Collection :=
  { docs := col.docs.filter (fun doc => decide (doc.ID ≠ id))
    nodup := ((List.filter_sublist col.docs).map Doc.ID).nodup col.nodup }

/-- The error and the state after `client.Collection(collection).Add(ctx, data)`:
`Add` draws a new identifier and creates the document under it, with the fields of the
struct as the store keeps them, which fails when the identifier is taken. The reference
and write result that `Add` also returns are left out; `Put` discards them. -/
def Client.Add (c : Client) (collection : String) (ctx : Context) (env : Env)
    (data : Token) : Option Error × Client :=
  match roundTrip ctx env with
  | some e => (some e, c)
  | none =>
    if h : env.newID ∈ (c collection).docs.map Doc.ID then
      (some (Error.backend "AlreadyExists"), c)
    else
      (none, Function.update c collection
        ((c collection).insert { ID := env.newID, data := data.stored } h))

/-- The state of the store after the delete of the document `ref` points to. Deleting a
document that does not exist changes nothing. -/
def Client.delete (c : Client) (ref : DocumentRef) : Client :=
  Function.update c ref.collection ((c ref.collection).remove ref.ID)

/-- A `*firestore.Transaction`: the state its reads see and the deletes it has queued. -/
structure Transaction where
  client : Client
  deletes : List DocumentRef

/-- The iterator of `tx.Documents(query)`, read inside the transaction. -/
def Transaction.Documents (tx : Transaction) (q : Query) : DocumentIterator :=
  { err := none, docs := q.run tx.client }

/-- The error and the transaction after `tx.Delete(ref)`: the delete is queued. -/
def Transaction.Delete (tx : Transaction) (ref : DocumentRef) :
    Option Error × Transaction :=
  (none, { tx with deletes := tx.deletes ++ [ref] })

/-- The error and the state after `client.RunTransaction(ctx, f)`: one round trip under
`ctx`; `f` runs on the current state; when `f` returns an error nothing is written, else
the queued deletes are committed together. -/
def Client.RunTransaction (c : Client) (ctx : Context) (env : Env)
    (f : Transaction → Option Error × Transaction) : Option Error × Client :=
  match roundTrip ctx env with
  | some e => (some e, c)
  | none =>
    match f { client := c, deletes := [] } with
    | (some e, _) => (some e, c)
    | (none, tx) => (none, tx.deletes.foldl Client.delete c)

/-! ## database.go -/

/-- The struct `database`: the client (by the state behind it), the collection name and
the timeout of each operation. -/
structure database where
  client : Client
  collection : String
  timeout : Duration

/-- The method `(*database).Put`: its error and the state it leaves. -/
def database.Put (d : database) (ctx : Context) (env : Env) (token : Token) :
    Option Error × database :=
  let ctx := WithTimeout ctx env.now d.timeout
  let (err, client) := d.client.Add d.collection ctx env token
  (err, { d with client := client })

/-- The method `(*database).Get`: the token pointer (absent for nil), the error and the
state it leaves. -/
def database.Get (d : database) (ctx : Context) (env : Env) (key : String) (val : Value) :
    Option Token × Option Error × database :=
  let ctx := WithTimeout ctx env.now d.timeout
  let iter := (((d.client.Collection d.collection).Where key val).Limit 1).Documents
    d.client ctx env
  match iter.Next with
  | .error err =>
    if err = Error.Done then (none, some Error.ErrTokenNotFound, d)
    else (none, some err, d)
  | .ok doc =>
    let (info, err) := doc.DataTo
    (some info, err, d)

/-- The method `(*database).Del`: its error and the state it leaves. -/
def database.Del (d : database) (ctx : Context) (env : Env) (key : String) (val : Value) :
    Option Error × database :=
  let ctx := WithTimeout ctx env.now d.timeout
  let (err, client) := d.client.RunTransaction ctx env (fun tx =>
    let query := ((d.client.Collection d.collection).Where key val).Limit 1
    let iter := tx.Documents query
    match iter.Next with
    | .error err =>
      if err = Error.Done then (none, tx)
      else (some err, tx)
    | .ok doc => tx.Delete (doc.Ref d.collection))
  (err, { d with client := client })

/-! ## token-store.go -/

def keyCode : String := "Code"

def keyAccess : String := "Access"

def keyRefresh : String := "Refresh"

/-- Go `time.Second`, in nanoseconds. -/
def Second : Duration := 1000000000

/-- The constant `timeout = 30 * time.Second`. -/
def timeout : Duration := 30 * Second

/-- The struct `tokenStore`. -/
structure tokenStore where
  d : database

def NewWithTimeout (client : Client) (collection : String) (timeout : Duration) :
    tokenStore :=
  let d : database := { client := client, collection := collection, timeout := timeout }
  { d := d }

def New (client : Client) (collection : String) : tokenStore :=
  NewWithTimeout client collection timeout

/-- The dynamic type and the content of an interface value; absent for the nil
interface. -/
def TokenInfo.dynamic : TokenInfo → Option (String × GoData)
  | .nil => none
  | .nilPtr => some ("*models.Token", GoData.nil)
  | .ptr t => some ("*models.Token", GoData.ptrTo (GoData.token t))
  | .other v => some (v.typ, v.data)

/-- The dynamic type and content of what `info.New()` returns. The method of
`*models.Token` returns `NewToken()`, whatever the receiver. -/
def TokenInfo.New : TokenInfo → Option (String × GoData)
  | .other v => v.new
  | _ => some ("*models.Token", GoData.ptrTo (GoData.token NewToken))

/-- Go `reflect.ValueOf(info).IsNil()`: whether the pointer, map, slice, func or chan
is nil; a panic on a value of any other kind. -/
def TokenInfo.IsNil : TokenInfo → Except Error Bool
  | .nil => .error (Error.panic "reflect: call of reflect.Value.IsNil on zero Value")
  | .nilPtr => .ok true
  | .ptr _ => .ok false
  | .other v =>
    if v.kind.nilable then .ok (decide (v.data = GoData.nil))
    else .error (Error.panic "reflect: call of reflect.Value.IsNil on a Value of this kind")

/-- Go `reflect.DeepEqual` on two interface values: the same dynamic type and deeply
equal content, or both the nil interface. -/
def DeepEqual (a b : Option (String × GoData)) : Bool := decide (a = b)

def isNilOrZero (info : TokenInfo) : Except Error Bool :=
  if info = TokenInfo.nil then .ok true
  else
    match info.IsNil with
    | .error e => .error e
    | .ok true => .ok true
    | .ok false => .ok (DeepEqual info.dynamic info.New)

/-- The record of what the accessors of the value return: the fields of the struct a
`*models.Token` points to; a panic on a nil pointer or nil interface, and where an
accessor of another implementation panics. -/
def TokenInfo.deref : TokenInfo → Except Error Token
  | .ptr t => .ok t
  | .other v =>
    match v.get with
    | some t => .ok t
    | none => .error (Error.panic "accessor panics")
  | _ => .error (Error.panic "invalid memory address or nil pointer dereference")

def TokenInfo.GetClientID (info : TokenInfo) : Except Error String :=
  info.deref.map Token.ClientID
def TokenInfo.GetUserID (info : TokenInfo) : Except Error String :=
  info.deref.map Token.UserID
def TokenInfo.GetRedirectURI (info : TokenInfo) : Except Error String :=
  info.deref.map Token.RedirectURI
def TokenInfo.GetScope (info : TokenInfo) : Except Error String :=
  info.deref.map Token.Scope
def TokenInfo.GetCode (info : TokenInfo) : Except Error String :=
  info.deref.map Token.Code
def TokenInfo.GetCodeCreateAt (info : TokenInfo) : Except Error Time :=
  info.deref.map Token.CodeCreateAt
def TokenInfo.GetCodeExpiresIn (info : TokenInfo) : Except Error Duration :=
  info.deref.map Token.CodeExpiresIn
def TokenInfo.GetCodeChallenge (info : TokenInfo) : Except Error String :=
  info.deref.map Token.CodeChallenge
def TokenInfo.GetCodeChallengeMethod (info : TokenInfo) : Except Error String :=
  info.deref.map Token.CodeChallengeMethod
def TokenInfo.GetAccess (info : TokenInfo) : Except Error String :=
  info.deref.map Token.Access
def TokenInfo.GetAccessCreateAt (info : TokenInfo) : Except Error Time :=
  info.deref.map Token.AccessCreateAt
def TokenInfo.GetAccessExpiresIn (info : TokenInfo) : Except Error Duration :=
  info.deref.map Token.AccessExpiresIn
def TokenInfo.GetRefresh (info : TokenInfo) : Except Error String :=
  info.deref.map Token.Refresh
def TokenInfo.GetRefreshCreateAt (info : TokenInfo) : Except Error Time :=
  info.deref.map Token.RefreshCreateAt
def TokenInfo.GetRefreshExpiresIn (info : TokenInfo) : Except Error Duration :=
  info.deref.map Token.RefreshExpiresIn

/-- The function `token`: the record built from the accessors, or the error; a panic of
`isNilOrZero` or of an accessor passes through. -/
def token (info : TokenInfo) : Except Error Token :=
  match isNilOrZero info with
  | .error e => .error e
  | .ok true => .error Error.ErrInvalidTokenInfo
  | .ok false => do
    let clientID ← info.GetClientID
    let userID ← info.GetUserID
    let redirectURI ← info.GetRedirectURI
    let scope ← info.GetScope
    let code ← info.GetCode
    let codeCreateAt ← info.GetCodeCreateAt
    let codeExpiresIn ← info.GetCodeExpiresIn
    let codeChallenge ← info.GetCodeChallenge
    let codeChallengeMethod ← info.GetCodeChallengeMethod
    let access ← info.GetAccess
    let accessCreateAt ← info.GetAccessCreateAt
    let accessExpiresIn ← info.GetAccessExpiresIn
    let refresh ← info.GetRefresh
    let refreshCreateAt ← info.GetRefreshCreateAt
    let refreshExpiresIn ← info.GetRefreshExpiresIn
    pure
      { ClientID := clientID
        UserID := userID
        RedirectURI := redirectURI
        Scope := scope
        Code := code
        CodeCreateAt := codeCreateAt
        CodeExpiresIn := codeExpiresIn
        CodeChallenge := codeChallenge
        CodeChallengeMethod := codeChallengeMethod
        Access := access
        AccessCreateAt := accessCreateAt
        AccessExpiresIn := accessExpiresIn
        Refresh := refresh
        RefreshCreateAt := refreshCreateAt
        RefreshExpiresIn := refreshExpiresIn }

/-- The interface value a `*models.Token` becomes when returned as `oauth2.TokenInfo`:
a nil pointer stays a nil pointer inside a non-nil interface. -/
def asTokenInfo : Option Token → TokenInfo
  | none => .nilPtr
  | some t => .ptr t

def tokenStore.Create (ts : tokenStore) (ctx : Context) (env : Env) (info : TokenInfo) :
    Option Error × tokenStore :=
  match token info with
  | .error err => (some err, ts)
  | .ok t =>
    let (err, d) := ts.d.Put ctx env t
    (err, { d := d })

def tokenStore.RemoveByCode (ts : tokenStore) (ctx : Context) (env : Env) (code : String) :
    Option Error × tokenStore :=
  let (err, d) := ts.d.Del ctx env keyCode (.str code)
  (err, { d := d })

def tokenStore.RemoveByAccess (ts : tokenStore) (ctx : Context) (env : Env)
    (access : String) : Option Error × tokenStore :=
  let (err, d) := ts.d.Del ctx env keyAccess (.str access)
  (err, { d := d })

def tokenStore.RemoveByRefresh (ts : tokenStore) (ctx : Context) (env : Env)
    (refresh : String) : Option Error × tokenStore :=
  let (err, d) := ts.d.Del ctx env keyRefresh (.str refresh)
  (err, { d := d })

def tokenStore.GetByCode (ts : tokenStore) (ctx : Context) (env : Env) (code : String) :
    TokenInfo × Option Error × tokenStore :=
  let (t, err, d) := ts.d.Get ctx env keyCode (.str code)
  (asTokenInfo t, err, { d := d })

def tokenStore.GetByAccess (ts : tokenStore) (ctx : Context) (env : Env)
    (access : String) : TokenInfo × Option Error × tokenStore :=
  let (t, err, d) := ts.d.Get ctx env keyAccess (.str access)
  (asTokenInfo t, err, { d := d })

def tokenStore.GetByRefresh (ts : tokenStore) (ctx : Context) (env : Env)
    (refresh : String) : TokenInfo × Option Error × tokenStore :=
  let (t, err, d) := ts.d.Get ctx env keyRefresh (.str refresh)
  (asTokenInfo t, err, { d := d })

/-! ## Vocabulary of the statements -/

/-- The documents of the collection the adapter works on. -/
def database.docs (d : database) : List Doc := (d.client d.collection).docs

/-- The documents of the collection the repository works on. -/
def tokenStore.docs (ts : tokenStore) : List Doc := ts.d.docs

/-- The round trip of an operation of `d` called with `ctx` in `env` completes: the
context the operation derives is not done, the store answers before the deadline and
reports no error. -/
def database.completes (d : database) (ctx : Context) (env : Env) : Prop :=
  roundTrip (WithTimeout ctx env.now d.timeout) env = none

instance (d : database) (ctx : Context) (env : Env) : Decidable (d.completes ctx env) := by
  unfold database.completes
  exact inferInstance

/-! ## Sample values -/

/-- A store with no document in any collection. -/
def emptyClient : Client := fun _ => { docs := [], nodup := List.nodup_nil }

/-- An environment in which the store answers at once and reports no error. -/
def quietEnv (newID : String) : Env :=
  { now := 0, elapsed := 0, fault := none, newID := newID }

/-- A context that its caller has cancelled. -/
def cancelledCtx : Context := { deadline := none, err := some CtxErr.Canceled }

/-- A token with code, access and refresh material. -/
def sampleToken : Token :=
  { NewToken with ClientID := "client", Code := "abc123", Access := "acc456",
                  Refresh := "ref789" }

/-- A token of another client that carries the same code, access and refresh strings. -/
def rivalToken : Token :=
  { NewToken with ClientID := "rival", Code := "abc123", Access := "acc456",
                  Refresh := "ref789" }

/-- A token with access material only: its code and refresh fields are empty. -/
def accessOnlyToken : Token :=
  { NewToken with ClientID := "client", Access := "acc456" }

/-- The repository over the empty store, with the default timeout. -/
def emptyStore : tokenStore := New emptyClient "tokens"

/-- The repository after `Create(rivalToken)` on the empty store, stored as "doc1". -/
def rivalStore : tokenStore :=
  (emptyStore.Create Background (quietEnv "doc1") (TokenInfo.ptr rivalToken)).2

/-- The repository after `Create(accessOnlyToken)` on the empty store, stored as "doc1". -/
def accessOnlyStore : tokenStore :=
  (emptyStore.Create Background (quietEnv "doc1") (TokenInfo.ptr accessOnlyToken)).2

/-- The repository after `Create(sampleToken)` on `rivalStore`, stored as "doc2". -/
def crowdedStore : tokenStore :=
  (rivalStore.Create Background (quietEnv "doc2") (TokenInfo.ptr sampleToken)).2

/-- A value of a struct type `wrapped`, declared as `struct{ *models.Token }`, around a
pointer to `t`. Its methods are those of the embedded pointer: the accessors read `t`
and `New` returns `NewToken()`. -/
def wrappedStruct (t : Token) : TokenInfo :=
  TokenInfo.other
    { typ := "wrapped", kind := Kind.Struct
      data := GoData.pair (GoData.ptrTo (GoData.token t)) GoData.unit
      new := some ("*models.Token", GoData.ptrTo (GoData.token NewToken))
      get := some t }

/-- A pointer to a struct of the type `wrapped`, around a pointer to `t`. -/
def wrappedPtr (t : Token) : TokenInfo :=
  TokenInfo.other
    { typ := "*wrapped", kind := Kind.Ptr
      data := GoData.ptrTo (GoData.pair (GoData.ptrTo (GoData.token t)) GoData.unit)
      new := some ("*models.Token", GoData.ptrTo (GoData.token NewToken))
      get := some t }

/-- A pointer to a struct of a type `scoped` with one field, the scope, whose `New`
returns a pointer to a struct with the scope "openid" and whose other accessors return
zero values. -/
def scopedPtr (scope : String) : TokenInfo :=
  TokenInfo.other
    { typ := "*scoped", kind := Kind.Ptr
      data := GoData.ptrTo (GoData.pair (GoData.str scope) GoData.unit)
      new := some ("*scoped", GoData.ptrTo (GoData.pair (GoData.str "openid") GoData.unit))
      get := some { NewToken with Scope := scope } }

/-- The sample token with a code creation time in the location "Local", as
`time.Unix` or `time.Date(..., time.Local)` return it. -/
def localTimeToken : Token :=
  { sampleToken with CodeCreateAt := { wall := 0, ext := 63000000000, loc := some "Local" } }

/-- A document under the code "abc123" that also holds a string under the name
"codeexpiresin": `DataTo` fails on it, reaching that field before any other. -/
def brokenDoc : Doc :=
  { ID := "doc1", data := sampleToken
    broken := some { status := "firestore: cannot set type time.Duration to string",
                     filled := NewToken } }

/-- The repository over a store whose collection "tokens" holds `brokenDoc` only. -/
def brokenStore : tokenStore :=
  New (fun _ => { docs := [brokenDoc], nodup := by decide }) "tokens"

/-! ## Lemmas on the backing store -/

theorem take_one_filter (p : Doc → Bool) (l : List Doc) :
    (l.filter p).take 1 = (l.find? p).toList := by
  induction l with
  | nil => rfl
  | cons a l ih =>
    by_cases h : p a = true
    · simp [List.filter_cons, List.find?_cons, h]
    · simp [List.filter_cons, List.find?_cons, h, ih]

theorem run_where_limit_one (c : Client) (collection key : String) (val : Value) :
    (((c.Collection collection).Where key val).Limit 1).run c =
      ((c collection).docs.find? (fun doc => decide (doc.data.field key = some val))).toList := by
  have hsat : (((c.Collection collection).Where key val).Limit 1).satisfiedBy =
      fun doc => decide (doc.data.field key = some val) := by
    funext doc
    simp [Query.satisfiedBy, Query.Limit, Query.Where, Client.Collection]
  show List.take 1 (List.filter _ (c collection).docs) = _
  rw [hsat]
  exact take_one_filter _ _

theorem roundTrip_ne_Done (ctx : Context) (env : Env) : roundTrip ctx env ≠ some Error.Done := by
  unfold roundTrip
  cases ctx.err <;> cases ctx.deadline <;> cases env.fault <;> simp
  all_goals split <;> simp

/-- What `Get` returns when the round trip completes: what `DataTo` makes of the first
document in collection order with the field, or `ErrTokenNotFound`. -/
theorem Get_of_completes (d : database) (ctx : Context) (env : Env) (key : String)
    (val : Value) (h : d.completes ctx env) :
    d.Get ctx env key val =
      match d.docs.find? (fun doc => decide (doc.data.field key = some val)) with
      | none => (none, some Error.ErrTokenNotFound, d)
      | some doc => (some doc.DataTo.1, doc.DataTo.2, d) := by
  unfold database.completes at h
  unfold database.Get
  simp only [Query.Documents, h, run_where_limit_one, database.docs]
  cases (d.client d.collection).docs.find? (fun doc => decide (doc.data.field key = some val)) with
  | none => simp [DocumentIterator.Next]
  | some doc => simp [DocumentIterator.Next]

/-- What `Get` returns when the round trip fails: the error, and no record. -/
theorem Get_of_fails (d : database) (ctx : Context) (env : Env) (key : String)
    (val : Value) (e : Error) (h : roundTrip (WithTimeout ctx env.now d.timeout) env = some e) :
    d.Get ctx env key val = (none, some e, d) := by
  have hne : e ≠ Error.Done := fun he => roundTrip_ne_Done _ _ (he ▸ h)
  unfold database.Get
  simp [Query.Documents, h, DocumentIterator.Next, hne]

/-- What `Del` does when the round trip completes: it deletes the first document in
collection order with the field, if there is one. -/
theorem Del_of_completes (d : database) (ctx : Context) (env : Env) (key : String)
    (val : Value) (h : d.completes ctx env) :
    d.Del ctx env key val =
      match d.docs.find? (fun doc => decide (doc.data.field key = some val)) with
      | none => (none, d)
      | some doc => (none, { d with client := d.client.delete (doc.Ref d.collection) }) := by
  unfold database.completes at h
  unfold database.Del
  simp only [Client.RunTransaction, h, Transaction.Documents, run_where_limit_one, database.docs]
  cases (d.client d.collection).docs.find? (fun doc => decide (doc.data.field key = some val)) with
  | none => simp [DocumentIterator.Next]
  | some doc => simp [DocumentIterator.Next, Transaction.Delete, List.foldl]

/-- What `Del` does when the round trip fails: it returns the error and writes nothing. -/
theorem Del_of_fails (d : database) (ctx : Context) (env : Env) (key : String)
    (val : Value) (e : Error) (h : roundTrip (WithTimeout ctx env.now d.timeout) env = some e) :
    d.Del ctx env key val = (some e, d) := by
  unfold database.Del
  simp [Client.RunTransaction, h]

/-- What `Put` does when the round trip fails: it returns the error and writes nothing. -/
theorem Put_of_fails (d : database) (ctx : Context) (env : Env) (tok : Token) (e : Error)
    (h : roundTrip (WithTimeout ctx env.now d.timeout) env = some e) :
    d.Put ctx env tok = (some e, d) := by
  unfold database.Put
  simp [Client.Add, h]

/-- What `Put` does when the round trip completes and the drawn identifier is new: the
collection gains the document. -/
theorem Put_of_completes (d : database) (ctx : Context) (env : Env) (tok : Token)
    (h : d.completes ctx env) (hnew : env.newID ∉ d.docs.map Doc.ID) :
    d.Put ctx env tok =
      (none,
        { d with
          client := Function.update d.client d.collection
            ((d.client d.collection).insert { ID := env.newID, data := tok.stored }
              hnew) }) := by
  unfold database.completes at h
  unfold database.docs at hnew
  unfold database.Put
  simp [Client.Add, h, hnew]

/-! ## Validation and conversion (`token`, `isNilOrZero`, `Create`) -/

theorem allFieldsZero_iff (t : Token) : t.allFieldsZero ↔ t = NewToken := by
  cases t
  simp [Token.allFieldsZero, NewToken]

theorem isNilOrZero_ptr (t : Token) :
    isNilOrZero (.ptr t) = .ok (decide (t = NewToken)) := by
  simp [isNilOrZero, TokenInfo.IsNil, DeepEqual, TokenInfo.New, TokenInfo.dynamic]

/-- What `isNilOrZero` returns on a value of a kind with nil that is not nil. -/
theorem isNilOrZero_of_not_nil (info : TokenInfo) (h : info.IsNil = .ok false) :
    isNilOrZero info = .ok (DeepEqual info.dynamic info.New) := by
  have hne : info ≠ TokenInfo.nil := by
    intro he
    rw [he] at h
    cases h
  simp [isNilOrZero, hne, h]

/-- What `token` returns on a value that passes `isNilOrZero` and whose accessors
return: the record of the accessors. -/
theorem token_of_valid (info : TokenInfo) (r : Token) (hz : isNilOrZero info = .ok false)
    (hget : info.deref = .ok r) : token info = .ok r := by
  simp [token, hz, hget, TokenInfo.GetClientID, TokenInfo.GetUserID,
    TokenInfo.GetRedirectURI, TokenInfo.GetScope, TokenInfo.GetCode,
    TokenInfo.GetCodeCreateAt, TokenInfo.GetCodeExpiresIn, TokenInfo.GetCodeChallenge,
    TokenInfo.GetCodeChallengeMethod, TokenInfo.GetAccess, TokenInfo.GetAccessCreateAt,
    TokenInfo.GetAccessExpiresIn, TokenInfo.GetRefresh, TokenInfo.GetRefreshCreateAt,
    TokenInfo.GetRefreshExpiresIn, Except.map, bind, Except.bind, pure, Except.pure]

theorem token_ptr (t : Token) (h : ¬ t.allFieldsZero) : token (.ptr t) = .ok t := by
  have hne : t ≠ NewToken := fun e => h ((allFieldsZero_iff t).mpr e)
  refine token_of_valid _ t ?_ rfl
  rw [isNilOrZero_ptr, decide_eq_false hne]

/-- What `Create` does on a value `isNilOrZero` holds of: it returns
`ErrInvalidTokenInfo` before `Put`, and the store is as it was. This covers the nil
interface, a nil pointer (map, slice, func, chan) of any type, and a value deeply equal
to what its `New` returns, the pointer to an all-zero `models.Token` among them. -/
theorem Create_of_isNilOrZero (ts : tokenStore) (ctx : Context) (env : Env)
    (info : TokenInfo) (h : isNilOrZero info = .ok true) :
    token info = .error Error.ErrInvalidTokenInfo ∧
    ts.Create ctx env info = (some Error.ErrInvalidTokenInfo, ts) := by
  have htok : token info = .error Error.ErrInvalidTokenInfo := by
    simp [token, h]
  exact ⟨htok, by simp [tokenStore.Create, htok]⟩

/-- C1, evaluated where the code departs from it: a pointer to a struct that embeds a
pointer to an all-zero `models.Token` is not absent and each of its fifteen accessors
returns a zero value, yet `isNilOrZero` is false of it (`DeepEqual` compares it with the
`*models.Token` its `New` returns, a value of another type), `Create` returns no error
and the collection gains an all-zero record. The struct itself, passed by value, makes
`IsNil` panic. On the nil interface, a nil `*models.Token` and a pointer to an all-zero
`models.Token`, `Create` returns `ErrInvalidTokenInfo` and writes nothing. -/
theorem Create_zero_of_other_type :
    (wrappedPtr NewToken).deref = .ok NewToken ∧ NewToken.allFieldsZero ∧
    isNilOrZero (wrappedPtr NewToken) = .ok false ∧
    (emptyStore.Create Background (quietEnv "doc1") (wrappedPtr NewToken)).1 = none ∧
    (emptyStore.Create Background (quietEnv "doc1") (wrappedPtr NewToken)).2.docs =
      [{ ID := "doc1", data := NewToken }] ∧
    (emptyStore.Create Background (quietEnv "doc1") (wrappedStruct NewToken)).1 =
      some (Error.panic "reflect: call of reflect.Value.IsNil on a Value of this kind") ∧
    (emptyStore.Create Background (quietEnv "doc1") TokenInfo.nil).1 =
      some Error.ErrInvalidTokenInfo ∧
    (emptyStore.Create Background (quietEnv "doc1") TokenInfo.nilPtr).1 =
      some Error.ErrInvalidTokenInfo ∧
    (emptyStore.Create Background (quietEnv "doc1") (TokenInfo.ptr NewToken)).1 =
      some Error.ErrInvalidTokenInfo := by
  decide

/-- C2, refuted as stated: a struct of the type `wrapped`, passed by value, is not
absent and its accessors return a code, an access and a refresh string, yet `IsNil`
panics on a value of struct kind: `token` and `Create` panic, validation does not pass.
And a pointer whose `New` returns a value deeply equal to it has a non-zero scope, yet
`isNilOrZero` holds of it and `Create` returns `ErrInvalidTokenInfo`. -/
theorem Create_valid_counterexample :
    wrappedStruct sampleToken ≠ TokenInfo.nil ∧
    (wrappedStruct sampleToken).deref = .ok sampleToken ∧ ¬ sampleToken.allFieldsZero ∧
    token (wrappedStruct sampleToken) =
      .error (Error.panic "reflect: call of reflect.Value.IsNil on a Value of this kind") ∧
    (emptyStore.Create Background (quietEnv "doc1") (wrappedStruct sampleToken)).1 =
      some (Error.panic "reflect: call of reflect.Value.IsNil on a Value of this kind") ∧
    (emptyStore.Create Background (quietEnv "doc1") (wrappedStruct sampleToken)).2.docs = [] ∧
    (scopedPtr "openid").GetScope = .ok "openid" ∧
    token (scopedPtr "openid") = .error Error.ErrInvalidTokenInfo := by
  decide

/-- C2, amended: for a token-info value of a kind with nil (pointer, map, slice, func,
chan) that is not nil, is not deeply equal to the value its `New` returns (for a
`*models.Token`: has a field that is not zero) and whose accessors return, validation
passes, the record `token` builds has each of its fifteen fields equal to the value of
the accessor of the same name, and `Create` returns what `Put` of that record returns. -/
theorem Create_valid (ts : tokenStore) (ctx : Context) (env : Env) (info : TokenInfo)
    (acc : Token) (hnil : info.IsNil = .ok false)
    (hnew : DeepEqual info.dynamic info.New = false) (hget : info.deref = .ok acc) :
    ∃ r : Token, token info = .ok r ∧
      info.GetClientID = .ok r.ClientID ∧ info.GetUserID = .ok r.UserID ∧
      info.GetRedirectURI = .ok r.RedirectURI ∧ info.GetScope = .ok r.Scope ∧
      info.GetCode = .ok r.Code ∧ info.GetCodeCreateAt = .ok r.CodeCreateAt ∧
      info.GetCodeExpiresIn = .ok r.CodeExpiresIn ∧
      info.GetCodeChallenge = .ok r.CodeChallenge ∧
      info.GetCodeChallengeMethod = .ok r.CodeChallengeMethod ∧
      info.GetAccess = .ok r.Access ∧ info.GetAccessCreateAt = .ok r.AccessCreateAt ∧
      info.GetAccessExpiresIn = .ok r.AccessExpiresIn ∧ info.GetRefresh = .ok r.Refresh ∧
      info.GetRefreshCreateAt = .ok r.RefreshCreateAt ∧
      info.GetRefreshExpiresIn = .ok r.RefreshExpiresIn ∧
      ts.Create ctx env info = ((ts.d.Put ctx env r).1, { d := (ts.d.Put ctx env r).2 }) := by
  have hz : isNilOrZero info = .ok false := by
    rw [isNilOrZero_of_not_nil info hnil, hnew]
  have htok := token_of_valid info acc hz hget
  refine ⟨acc, htok, ?_, ?_, ?_, ?_, ?_, ?_, ?_, ?_, ?_, ?_, ?_, ?_, ?_, ?_, ?_, ?_⟩
  · simp [TokenInfo.GetClientID, hget, Except.map]
  · simp [TokenInfo.GetUserID, hget, Except.map]
  · simp [TokenInfo.GetRedirectURI, hget, Except.map]
  · simp [TokenInfo.GetScope, hget, Except.map]
  · simp [TokenInfo.GetCode, hget, Except.map]
  · simp [TokenInfo.GetCodeCreateAt, hget, Except.map]
  · simp [TokenInfo.GetCodeExpiresIn, hget, Except.map]
  · simp [TokenInfo.GetCodeChallenge, hget, Except.map]
  · simp [TokenInfo.GetCodeChallengeMethod, hget, Except.map]
  · simp [TokenInfo.GetAccess, hget, Except.map]
  · simp [TokenInfo.GetAccessCreateAt, hget, Except.map]
  · simp [TokenInfo.GetAccessExpiresIn, hget, Except.map]
  · simp [TokenInfo.GetRefresh, hget, Except.map]
  · simp [TokenInfo.GetRefreshCreateAt, hget, Except.map]
  · simp [TokenInfo.GetRefreshExpiresIn, hget, Except.map]
  · simp only [tokenStore.Create, htok]

theorem Create_valid_witness :
    (TokenInfo.ptr sampleToken).IsNil = .ok false ∧
    (wrappedPtr sampleToken).IsNil = .ok false ∧
    (∃ r : Token, token (TokenInfo.ptr sampleToken) = .ok r ∧ r.Code = "abc123") ∧
    ∃ r : Token, token (wrappedPtr sampleToken) = .ok r ∧ r.Code = "abc123" := by
  obtain ⟨r, hr, -, -, -, -, hc, -⟩ :=
    Create_valid emptyStore Background (quietEnv "doc1") (TokenInfo.ptr sampleToken)
      sampleToken (by decide) (by decide) (by decide)
  obtain ⟨r', hr', -, -, -, -, hc', -⟩ :=
    Create_valid emptyStore Background (quietEnv "doc1") (wrappedPtr sampleToken)
      sampleToken (by decide) (by decide) (by decide)
  refine ⟨by decide, by decide, ⟨r, hr, ?_⟩, ⟨r', hr', ?_⟩⟩
  · have h : (Except.ok sampleToken.Code : Except Error String) = .ok r.Code := hc
    exact (Except.ok.inj h).symm
  · have h : (Except.ok sampleToken.Code : Except Error String) = .ok r'.Code := hc'
    exact (Except.ok.inj h).symm

/-! ## Delegation and timeouts -/

/-- C9: in every state, context and environment and for every value `v`, `GetByCode`,
`GetByAccess` and `GetByRefresh` return what `Get` returns for the field name "Code",
"Access" and "Refresh" with the string `v` (the token pointer as an interface value,
the error and the state unchanged in between), and `RemoveByCode`, `RemoveByAccess` and
`RemoveByRefresh` return what `Del` returns for those field names. -/
theorem GetBy_RemoveBy_delegate (ts : tokenStore) (ctx : Context) (env : Env) (v : String) :
    ts.GetByCode ctx env v =
      (asTokenInfo (ts.d.Get ctx env "Code" (Value.str v)).1,
        (ts.d.Get ctx env "Code" (Value.str v)).2.1,
        { d := (ts.d.Get ctx env "Code" (Value.str v)).2.2 }) ∧
    ts.GetByAccess ctx env v =
      (asTokenInfo (ts.d.Get ctx env "Access" (Value.str v)).1,
        (ts.d.Get ctx env "Access" (Value.str v)).2.1,
        { d := (ts.d.Get ctx env "Access" (Value.str v)).2.2 }) ∧
    ts.GetByRefresh ctx env v =
      (asTokenInfo (ts.d.Get ctx env "Refresh" (Value.str v)).1,
        (ts.d.Get ctx env "Refresh" (Value.str v)).2.1,
        { d := (ts.d.Get ctx env "Refresh" (Value.str v)).2.2 }) ∧
    ts.RemoveByCode ctx env v =
      ((ts.d.Del ctx env "Code" (Value.str v)).1,
        { d := (ts.d.Del ctx env "Code" (Value.str v)).2 }) ∧
    ts.RemoveByAccess ctx env v =
      ((ts.d.Del ctx env "Access" (Value.str v)).1,
        { d := (ts.d.Del ctx env "Access" (Value.str v)).2 }) ∧
    ts.RemoveByRefresh ctx env v =
      ((ts.d.Del ctx env "Refresh" (Value.str v)).1,
        { d := (ts.d.Del ctx env "Refresh" (Value.str v)).2 }) := by
  refine ⟨?_, ?_, ?_, ?_, ?_, ?_⟩
  · simp only [tokenStore.GetByCode, keyCode]
  · simp only [tokenStore.GetByAccess, keyAccess]
  · simp only [tokenStore.GetByRefresh, keyRefresh]
  · simp only [tokenStore.RemoveByCode, keyCode]
  · simp only [tokenStore.RemoveByAccess, keyAccess]
  · simp only [tokenStore.RemoveByRefresh, keyRefresh]

theorem WithTimeout_deadline (ctx : Context) (now : Instant) (d : Duration) :
    ∃ dl, (WithTimeout ctx now d).deadline = some dl ∧ dl ≤ now + d ∧
      (∀ c, ctx.deadline = some c → dl ≤ c) ∧
      (dl = now + d ∨ ctx.deadline = some dl) := by
  unfold WithTimeout WithDeadline
  cases hd : ctx.deadline with
  | none => exact ⟨now + d, by simp, le_refl _, by simp, Or.inl rfl⟩
  | some cur =>
    by_cases hlt : cur < now + d
    · refine ⟨cur, by simp [hlt, hd], le_of_lt hlt, ?_, Or.inr rfl⟩
      intro c hc
      cases hc
      exact le_refl _
    · refine ⟨now + d, by simp [hlt], le_refl _, ?_, Or.inl rfl⟩
      intro c hc
      cases hc
      exact not_lt.mp hlt

theorem roundTrip_WithTimeout_late (ctx : Context) (env : Env) (d : Duration)
    (hlate : d ≤ env.elapsed ∨ ∃ c, ctx.deadline = some c ∧ c ≤ env.now + env.elapsed) :
    ∃ e, roundTrip (WithTimeout ctx env.now d) env = some (Error.ctx e) := by
  obtain ⟨dl, hdl, hle, hpar, -⟩ := WithTimeout_deadline ctx env.now d
  have hexp : dl ≤ env.now + env.elapsed := by
    rcases hlate with h | ⟨c, hc, hcle⟩
    · exact le_trans hle (add_le_add_left h env.now)
    · exact le_trans (hpar c hc) hcle
  unfold roundTrip
  cases herr : (WithTimeout ctx env.now d).err with
  | some e => exact ⟨e, rfl⟩
  | none => exact ⟨CtxErr.DeadlineExceeded, by simp [hdl, hexp]⟩

theorem Put_congr (d : database) (ctx ctx' : Context) (env : Env) (tok : Token)
    (h : roundTrip (WithTimeout ctx' env.now d.timeout) env =
      roundTrip (WithTimeout ctx env.now d.timeout) env) :
    d.Put ctx' env tok = d.Put ctx env tok := by
  unfold database.Put Client.Add
  simp only [h]

theorem Get_congr (d : database) (ctx ctx' : Context) (env : Env) (key : String)
    (val : Value)
    (h : roundTrip (WithTimeout ctx' env.now d.timeout) env =
      roundTrip (WithTimeout ctx env.now d.timeout) env) :
    d.Get ctx' env key val = d.Get ctx env key val := by
  unfold database.Get Query.Documents
  simp only [h]

theorem Del_congr (d : database) (ctx ctx' : Context) (env : Env) (key : String)
    (val : Value)
    (h : roundTrip (WithTimeout ctx' env.now d.timeout) env =
      roundTrip (WithTimeout ctx env.now d.timeout) env) :
    d.Del ctx' env key val = d.Del ctx env key val := by
  unfold database.Del Client.RunTransaction
  simp only [h]

/-- C10: `New(handle, name)` builds the repository `NewWithTimeout(handle, name, 30 s)`;
and the repository built with timeout `d` runs `Put`, `Get` and `Del` under the context
`WithTimeout(ctx, d)` derived from the caller's. That context has a deadline, which is
not later than `d` after the start of the operation nor later than the caller's own
deadline (and is one of the two). `Put` is the `Add` of the store under that context. The
caller's context bears on the three operations through the round trip under the derived
context only; an error of that round trip is what each operation returns, with nothing
written; and when the store needs `d` or longer, or does not answer before the caller's
deadline, the round trip fails with a context error. -/
theorem New_timeout (client : Client) (name : String) :
    New client name = NewWithTimeout client name 30000000000 ∧
    ∀ (d : Duration) (ctx : Context) (env : Env),
      (∃ dl, (WithTimeout ctx env.now d).deadline = some dl ∧ dl ≤ env.now + d ∧
        (∀ c, ctx.deadline = some c → dl ≤ c) ∧
        (dl = env.now + d ∨ ctx.deadline = some dl)) ∧
      (∀ tok, (NewWithTimeout client name d).d.Put ctx env tok =
        ((client.Add name (WithTimeout ctx env.now d) env tok).1,
          { client := (client.Add name (WithTimeout ctx env.now d) env tok).2,
            collection := name, timeout := d })) ∧
      (∀ ctx', roundTrip (WithTimeout ctx' env.now d) env =
          roundTrip (WithTimeout ctx env.now d) env →
        (∀ tok, (NewWithTimeout client name d).d.Put ctx' env tok =
          (NewWithTimeout client name d).d.Put ctx env tok) ∧
        (∀ key val, (NewWithTimeout client name d).d.Get ctx' env key val =
          (NewWithTimeout client name d).d.Get ctx env key val) ∧
        (∀ key val, (NewWithTimeout client name d).d.Del ctx' env key val =
          (NewWithTimeout client name d).d.Del ctx env key val)) ∧
      (∀ e, roundTrip (WithTimeout ctx env.now d) env = some e →
        (∀ tok, (NewWithTimeout client name d).d.Put ctx env tok =
          (some e, (NewWithTimeout client name d).d)) ∧
        (∀ key val, (NewWithTimeout client name d).d.Get ctx env key val =
          (none, some e, (NewWithTimeout client name d).d)) ∧
        (∀ key val, (NewWithTimeout client name d).d.Del ctx env key val =
          (some e, (NewWithTimeout client name d).d))) ∧
      ((d ≤ env.elapsed ∨ ∃ c, ctx.deadline = some c ∧ c ≤ env.now + env.elapsed) →
        ∃ e, roundTrip (WithTimeout ctx env.now d) env = some (Error.ctx e)) := by
  refine ⟨rfl, fun d ctx env =>
    ⟨WithTimeout_deadline ctx env.now d, fun tok => rfl, ?_, ?_, ?_⟩⟩
  · intro ctx' h
    exact ⟨fun tok => Put_congr _ ctx ctx' env tok h,
      fun key val => Get_congr _ ctx ctx' env key val h,
      fun key val => Del_congr _ ctx ctx' env key val h⟩
  · intro e he
    exact ⟨fun tok => Put_of_fails _ ctx env tok e he,
      fun key val => Get_of_fails _ ctx env key val e he,
      fun key val => Del_of_fails _ ctx env key val e he⟩
  · exact roundTrip_WithTimeout_late ctx env d

/-! ## The documents after `Put` and `Del` -/

theorem completes_or_fails (d : database) (ctx : Context) (env : Env) :
    d.completes ctx env ∨ ∃ e, roundTrip (WithTimeout ctx env.now d.timeout) env = some e := by
  unfold database.completes
  cases h : roundTrip (WithTimeout ctx env.now d.timeout) env with
  | none => exact Or.inl rfl
  | some e => exact Or.inr ⟨e, rfl⟩

/-- A `Put` that returns no error completed its round trip under a new identifier, and
the collection is the old one with the new document, the token as the store keeps it,
at its place. -/
theorem Put_success (d d' : database) (ctx : Context) (env : Env) (tok : Token)
    (h : d.Put ctx env tok = (none, d')) :
    d.completes ctx env ∧ env.newID ∉ d.docs.map Doc.ID ∧
      d'.docs = d.docs.orderedInsert Doc.le { ID := env.newID, data := tok.stored } ∧
      d'.collection = d.collection ∧ d'.timeout = d.timeout := by
  rcases completes_or_fails d ctx env with hc | ⟨e, he⟩
  · by_cases hnew : env.newID ∈ d.docs.map Doc.ID
    · exfalso
      unfold database.completes at hc
      unfold database.docs at hnew
      simp [database.Put, Client.Add, hc, hnew] at h
    · rw [Put_of_completes d ctx env tok hc hnew] at h
      have hd : d' = _ := (Prod.mk.inj h).2.symm
      subst hd
      refine ⟨hc, hnew, ?_, rfl, rfl⟩
      simp [database.docs, Collection.insert]
  · rw [Put_of_fails d ctx env tok e he] at h
    exact absurd (Prod.mk.inj h).1 (by simp)

/-- A `Del` that returns no error completed its round trip. -/
theorem Del_success (d d' : database) (ctx : Context) (env : Env) (key : String)
    (val : Value) (h : d.Del ctx env key val = (none, d')) : d.completes ctx env := by
  rcases completes_or_fails d ctx env with hc | ⟨e, he⟩
  · exact hc
  · rw [Del_of_fails d ctx env key val e he] at h
    exact absurd (Prod.mk.inj h).1 (by simp)

theorem delete_docs (d : database) (doc : Doc) :
    ({ d with client := d.client.delete (doc.Ref d.collection) } : database).docs =
      d.docs.filter (fun x => decide (x.ID ≠ doc.ID)) := by
  simp [database.docs, Client.delete, Doc.Ref, Collection.remove]

theorem filter_ID_ne_eq_erase (l : List Doc) (doc : Doc) (hn : (l.map Doc.ID).Nodup)
    (hm : doc ∈ l) : l.filter (fun x => decide (x.ID ≠ doc.ID)) = l.erase doc := by
  induction l with
  | nil => cases hm
  | cons a l ih =>
    rw [List.map_cons, List.nodup_cons] at hn
    obtain ⟨ha, hl⟩ := hn
    by_cases had : a = doc
    · subst had
      have hall : ∀ x ∈ l, decide (x.ID ≠ a.ID) = true := by
        intro x hx
        refine decide_eq_true ?_
        intro hxa
        exact ha (hxa ▸ List.mem_map_of_mem Doc.ID hx)
      rw [List.erase_cons_head, List.filter_cons_of_neg (by simp)]
      exact List.filter_eq_self.mpr hall
    · have hdl : doc ∈ l := by
        rcases List.mem_cons.mp hm with h | h
        · exact absurd h.symm had
        · exact h
      have hid : a.ID ≠ doc.ID := by
        intro hxa
        exact ha (hxa ▸ List.mem_map_of_mem Doc.ID hdl)
      rw [List.erase_cons_tail (by simpa using had),
        List.filter_cons_of_pos (by simpa using hid), ih hl hdl]

theorem find?_orderedInsert_new (l : List Doc) (doc : Doc) (p : Doc → Bool)
    (hp : p doc = true) (hl : ∀ x ∈ l, p x = false) :
    (l.orderedInsert Doc.le doc).find? p = some doc := by
  cases h : (l.orderedInsert Doc.le doc).find? p with
  | none =>
    have := List.find?_eq_none.mp h doc ((List.mem_orderedInsert Doc.le).mpr (Or.inl rfl))
    exact absurd hp this
  | some x =>
    have hx := List.find?_some h
    have hmem := List.mem_of_find?_eq_some h
    rcases (List.mem_orderedInsert Doc.le).mp hmem with rfl | hxl
    · rfl
    · rw [hl x hxl] at hx
      cases hx

/-! ## Create, then look up -/

theorem field_Code (t : Token) : t.field "Code" = some (Value.str t.Code) := by
  simp [Token.field]

theorem field_Access (t : Token) : t.field "Access" = some (Value.str t.Access) := by
  simp [Token.field]

theorem field_Refresh (t : Token) : t.field "Refresh" = some (Value.str t.Refresh) := by
  simp [Token.field]

/-- A time read back from the store is the same instant to the microsecond, with no
location and no monotonic reading. -/
theorem Time_stored_spec (t : Time) :
    t.stored.unixMicro = t.unixMicro ∧ t.stored.loc = none ∧
      t.stored.hasMonotonic = false := by
  have hn : t.nsec < 1073741824 := Nat.mod_lt _ (by decide)
  have hw : t.nsec / 1000 * 1000 < 1073741824 := by omega
  have hmono : t.stored.hasMonotonic = false := by
    have h0 : t.nsec / 1000 * 1000 / 9223372036854775808 = 0 := by omega
    simp [Time.stored, Time.hasMonotonic, h0]
  refine ⟨?_, rfl, hmono⟩
  have hsec : t.stored.sec = t.sec := by
    rw [Time.sec, hmono]
    rfl
  have hnsec : t.stored.nsec / 1000 = t.nsec / 1000 := by
    have h1 : t.stored.nsec = t.nsec / 1000 * 1000 := by
      show t.nsec / 1000 * 1000 % 1073741824 = _
      omega
    rw [h1]
    omega
  rw [Time.unixMicro, hsec, hnsec]
  rfl

/-- Writing a time that was read back from the store and reading it again changes
nothing. -/
theorem Time_stored_idem (t : Time) : t.stored.stored = t.stored := by
  obtain ⟨-, -, hmono⟩ := Time_stored_spec t
  have hn : t.nsec < 1073741824 := Nat.mod_lt _ (by decide)
  have hsec : t.stored.sec = t.sec := by
    rw [Time.sec, hmono]
    rfl
  have h1 : t.stored.nsec = t.nsec / 1000 * 1000 := by
    show t.nsec / 1000 * 1000 % 1073741824 = _
    omega
  have h2 : t.stored.nsec / 1000 * 1000 = t.nsec / 1000 * 1000 := by
    rw [h1]
    omega
  show ({ wall := t.stored.nsec / 1000 * 1000, ext := t.stored.sec, loc := none } : Time) =
    { wall := t.nsec / 1000 * 1000, ext := t.sec, loc := none }
  rw [h2, hsec]

theorem Token_stored_idem (t : Token) : t.stored.stored = t.stored := by
  simp [Token.stored, Time_stored_idem]

/-- A `Create` of a valid token that returns no error completed its round trip under a
new identifier, and the collection is the old one with the token, as the store keeps it,
as a new document. -/
theorem Create_success (ts ts' : tokenStore) (ctx : Context) (env : Env) (t : Token)
    (hvalid : ¬ t.allFieldsZero) (h : ts.Create ctx env (.ptr t) = (none, ts')) :
    ts.d.completes ctx env ∧ env.newID ∉ ts.docs.map Doc.ID ∧
      ts'.docs = ts.docs.orderedInsert Doc.le { ID := env.newID, data := t.stored } ∧
      ts'.d.collection = ts.d.collection ∧ ts'.d.timeout = ts.d.timeout := by
  simp only [tokenStore.Create, token_ptr t hvalid] at h
  have hput : ts.d.Put ctx env t = (none, ts'.d) := by
    have h1 := (Prod.mk.inj h).1
    have h2 := (Prod.mk.inj h).2
    rw [← h2]
    exact Prod.ext h1 rfl
  exact Put_success ts.d ts'.d ctx env t hput

/-- What a `Get` by key returns on a collection in which the first document with the
field is `doc`, when the round trip completes. -/
theorem Get_found (d : database) (ctx : Context) (env : Env) (key : String) (val : Value)
    (doc : Doc) (h : d.completes ctx env)
    (hfind : d.docs.find? (fun x => decide (x.data.field key = some val)) = some doc) :
    d.Get ctx env key val = (some doc.DataTo.1, doc.DataTo.2, d) := by
  rw [Get_of_completes d ctx env key val h, hfind]

/-- What a `Get` by key returns on a collection without a document with the field, when
the round trip completes. -/
theorem Get_absent (d : database) (ctx : Context) (env : Env) (key : String) (val : Value)
    (h : d.completes ctx env) (hno : ∀ x ∈ d.docs, x.data.field key ≠ some val) :
    d.Get ctx env key val = (none, some Error.ErrTokenNotFound, d) := by
  have hfind : d.docs.find? (fun x => decide (x.data.field key = some val)) = none := by
    refine List.find?_eq_none.mpr ?_
    intro x hx
    simpa using hno x hx
  rw [Get_of_completes d ctx env key val h, hfind]

/-- C3, refuted as stated, twice. The store holds a token of another client under the
code "abc123"; `Create` of a valid token with that code succeeds, yet
`GetByCode("abc123")` then returns, without error, the other client's record. And on the
empty store, `Create` of a valid token whose code creation time is in the location
"Local" succeeds, and `GetByCode` then returns a record whose code creation time has no
location: the field differs from the token's. -/
theorem Create_then_GetByCode_counterexample :
    ¬ sampleToken.allFieldsZero ∧ sampleToken.Code ≠ "" ∧
    (rivalStore.Create Background (quietEnv "doc2") (TokenInfo.ptr sampleToken)).1 = none ∧
    ((rivalStore.Create Background (quietEnv "doc2") (TokenInfo.ptr sampleToken)).2.GetByCode
        Background (quietEnv "doc3") sampleToken.Code).1 = TokenInfo.ptr rivalToken ∧
    ((rivalStore.Create Background (quietEnv "doc2") (TokenInfo.ptr sampleToken)).2.GetByCode
        Background (quietEnv "doc3") sampleToken.Code).2.1 = none ∧
    rivalToken.ClientID ≠ sampleToken.ClientID ∧
    ¬ localTimeToken.allFieldsZero ∧ localTimeToken.Code ≠ "" ∧
    (emptyStore.Create Background (quietEnv "doc1") (TokenInfo.ptr localTimeToken)).1 = none ∧
    ((emptyStore.Create Background (quietEnv "doc1") (TokenInfo.ptr localTimeToken)).2.GetByCode
        Background (quietEnv "doc2") localTimeToken.Code).1 =
      TokenInfo.ptr { localTimeToken with
        CodeCreateAt := { wall := 0, ext := 63000000000, loc := none } } ∧
    localTimeToken.CodeCreateAt ≠ { wall := 0, ext := 63000000000, loc := none } := by
  decide

/-- C3, amended: for a valid token `t` with a non-empty code and a store in which no
document carries the code of `t`, when `Create(t)` returns no error and the round trip
of the following `GetByCode(t.Code)` completes, that call returns, without error and
leaving the store as it was, a record whose twelve string and duration fields equal
those of `t` and whose three time fields are the instants of `t`, to the microsecond,
without location and without monotonic reading; the record equals `t` field by field
when the times of `t` are such as the store returns them. -/
theorem Create_then_GetByCode (ts ts' : tokenStore) (ctx ctx' : Context) (env env' : Env)
    (t : Token) (hvalid : ¬ t.allFieldsZero) (_hcode : t.Code ≠ "")
    (hcreate : ts.Create ctx env (TokenInfo.ptr t) = (none, ts'))
    (huniq : ∀ doc ∈ ts.docs, doc.data.Code ≠ t.Code)
    (hget : ts'.d.completes ctx' env') :
    ∃ r : Token, ts'.GetByCode ctx' env' t.Code = (TokenInfo.ptr r, none, ts') ∧
      r.ClientID = t.ClientID ∧ r.UserID = t.UserID ∧ r.RedirectURI = t.RedirectURI ∧
      r.Scope = t.Scope ∧ r.Code = t.Code ∧ r.CodeExpiresIn = t.CodeExpiresIn ∧
      r.CodeChallenge = t.CodeChallenge ∧
      r.CodeChallengeMethod = t.CodeChallengeMethod ∧ r.Access = t.Access ∧
      r.AccessExpiresIn = t.AccessExpiresIn ∧ r.Refresh = t.Refresh ∧
      r.RefreshExpiresIn = t.RefreshExpiresIn ∧
      (r.CodeCreateAt.unixMicro = t.CodeCreateAt.unixMicro ∧ r.CodeCreateAt.loc = none ∧
        r.CodeCreateAt.hasMonotonic = false) ∧
      (r.AccessCreateAt.unixMicro = t.AccessCreateAt.unixMicro ∧
        r.AccessCreateAt.loc = none ∧ r.AccessCreateAt.hasMonotonic = false) ∧
      (r.RefreshCreateAt.unixMicro = t.RefreshCreateAt.unixMicro ∧
        r.RefreshCreateAt.loc = none ∧ r.RefreshCreateAt.hasMonotonic = false) ∧
      (t.CodeCreateAt.stored = t.CodeCreateAt → t.AccessCreateAt.stored = t.AccessCreateAt →
        t.RefreshCreateAt.stored = t.RefreshCreateAt → r = t) := by
  obtain ⟨-, -, hdocs, -, -⟩ := Create_success ts ts' ctx env t hvalid hcreate
  have hfind : ts'.d.docs.find? (fun x => decide (x.data.field "Code" = some (Value.str t.Code)))
      = some { ID := env.newID, data := t.stored } := by
    have hd : ts'.d.docs = ts.docs.orderedInsert Doc.le { ID := env.newID, data := t.stored } :=
      hdocs
    rw [hd]
    refine find?_orderedInsert_new _ _ _ (by simp [field_Code, Token.stored]) ?_
    intro x hx
    simpa [field_Code] using huniq x hx
  have hres : ts'.GetByCode ctx' env' t.Code = (TokenInfo.ptr t.stored, none, ts') := by
    simp only [tokenStore.GetByCode, keyCode, Get_found ts'.d ctx' env' "Code" _ _ hget hfind]
    simp [Doc.DataTo, Token_stored_idem, asTokenInfo]
  refine ⟨t.stored, hres, rfl, rfl, rfl, rfl, rfl, rfl, rfl, rfl, rfl, rfl, rfl, rfl,
    Time_stored_spec _, Time_stored_spec _, Time_stored_spec _, ?_⟩
  intro h1 h2 h3
  cases t
  simp only [Token.stored] at h1 h2 h3 ⊢
  simp [h1, h2, h3]

theorem Create_then_GetByCode_witness :
    (emptyStore.Create Background (quietEnv "doc1") (TokenInfo.ptr localTimeToken)).1 = none ∧
    ∃ r : Token,
      (emptyStore.Create Background (quietEnv "doc1")
          (TokenInfo.ptr localTimeToken)).2.GetByCode Background (quietEnv "doc2") "abc123" =
        (TokenInfo.ptr r, none,
          (emptyStore.Create Background (quietEnv "doc1") (TokenInfo.ptr localTimeToken)).2) ∧
      r.Code = "abc123" ∧ r.CodeCreateAt.loc = none := by
  obtain ⟨r, hr, -, -, -, -, hc, -, -, -, -, -, -, -, ⟨-, hloc, -⟩, -⟩ :=
    Create_then_GetByCode emptyStore _ Background Background (quietEnv "doc1")
      (quietEnv "doc2") localTimeToken (by decide) (by decide)
      (Prod.ext (by decide) rfl) (by intro doc hdoc; cases hdoc) (by decide)
  exact ⟨by decide, r, hr, hc, hloc⟩

/-! ## Queries for a value that no document carries -/

/-- C4, refuted as stated: on the empty store, where no document carries the code
"abc123", `GetByCode("abc123")` called with a cancelled context fails with the error of
the context, not with `ErrTokenNotFound`. -/
theorem GetBy_absent_counterexample :
    emptyStore.docs = [] ∧
    (emptyStore.GetByCode cancelledCtx (quietEnv "doc1") "abc123").2.1 =
      some (Error.ctx CtxErr.Canceled) ∧
    (emptyStore.GetByCode cancelledCtx (quietEnv "doc1") "abc123").2.1 ≠
      some Error.ErrTokenNotFound := by
  decide

/-- C4, amended: in every store state and for every value `x` that no stored document
carries in its Code (respectively Access, Refresh) field, `GetByCode(x)` (respectively
`GetByAccess(x)`, `GetByRefresh(x)`) fails with `ErrTokenNotFound` when the round trip
of the query completes, and with the error of the round trip otherwise; in both cases it
returns no record and leaves the store as it was. -/
theorem GetBy_absent (ts : tokenStore) (ctx : Context) (env : Env) (x : String) :
    ((∀ doc ∈ ts.docs, doc.data.Code ≠ x) →
      (ts.d.completes ctx env →
        ts.GetByCode ctx env x = (TokenInfo.nilPtr, some Error.ErrTokenNotFound, ts)) ∧
      (∀ e, roundTrip (WithTimeout ctx env.now ts.d.timeout) env = some e →
        ts.GetByCode ctx env x = (TokenInfo.nilPtr, some e, ts))) ∧
    ((∀ doc ∈ ts.docs, doc.data.Access ≠ x) →
      (ts.d.completes ctx env →
        ts.GetByAccess ctx env x = (TokenInfo.nilPtr, some Error.ErrTokenNotFound, ts)) ∧
      (∀ e, roundTrip (WithTimeout ctx env.now ts.d.timeout) env = some e →
        ts.GetByAccess ctx env x = (TokenInfo.nilPtr, some e, ts))) ∧
    ((∀ doc ∈ ts.docs, doc.data.Refresh ≠ x) →
      (ts.d.completes ctx env →
        ts.GetByRefresh ctx env x = (TokenInfo.nilPtr, some Error.ErrTokenNotFound, ts)) ∧
      (∀ e, roundTrip (WithTimeout ctx env.now ts.d.timeout) env = some e →
        ts.GetByRefresh ctx env x = (TokenInfo.nilPtr, some e, ts))) := by
  refine ⟨fun hno => ⟨fun hc => ?_, fun e he => ?_⟩, fun hno => ⟨fun hc => ?_, fun e he => ?_⟩,
    fun hno => ⟨fun hc => ?_, fun e he => ?_⟩⟩
  · have hno' : ∀ doc ∈ ts.d.docs, doc.data.field "Code" ≠ some (Value.str x) := by
      intro doc hdoc
      simpa [field_Code] using hno doc hdoc
    simp only [tokenStore.GetByCode, keyCode, Get_absent ts.d ctx env "Code" _ hc hno']
    rfl
  · simp only [tokenStore.GetByCode, keyCode, Get_of_fails ts.d ctx env "Code" _ e he]
    rfl
  · have hno' : ∀ doc ∈ ts.d.docs, doc.data.field "Access" ≠ some (Value.str x) := by
      intro doc hdoc
      simpa [field_Access] using hno doc hdoc
    simp only [tokenStore.GetByAccess, keyAccess, Get_absent ts.d ctx env "Access" _ hc hno']
    rfl
  · simp only [tokenStore.GetByAccess, keyAccess, Get_of_fails ts.d ctx env "Access" _ e he]
    rfl
  · have hno' : ∀ doc ∈ ts.d.docs, doc.data.field "Refresh" ≠ some (Value.str x) := by
      intro doc hdoc
      simpa [field_Refresh] using hno doc hdoc
    simp only [tokenStore.GetByRefresh, keyRefresh,
      Get_absent ts.d ctx env "Refresh" _ hc hno']
    rfl
  · simp only [tokenStore.GetByRefresh, keyRefresh,
      Get_of_fails ts.d ctx env "Refresh" _ e he]
    rfl

theorem GetBy_absent_witness :
    (∀ doc ∈ rivalStore.docs, doc.data.Code ≠ "zzz") ∧
    rivalStore.d.completes Background (quietEnv "doc2") ∧
    rivalStore.GetByCode Background (quietEnv "doc2") "zzz" =
      (TokenInfo.nilPtr, some Error.ErrTokenNotFound, rivalStore) :=
  ⟨by decide, by decide,
   ((GetBy_absent rivalStore Background (quietEnv "doc2") "zzz").1 (by decide)).1 (by decide)⟩

/-- What a `Del` by key does on a collection without a document with the field, when the
round trip completes: nothing, without error. -/
theorem Del_absent (d : database) (ctx : Context) (env : Env) (key : String) (val : Value)
    (h : d.completes ctx env) (hno : ∀ x ∈ d.docs, x.data.field key ≠ some val) :
    d.Del ctx env key val = (none, d) := by
  have hfind : d.docs.find? (fun x => decide (x.data.field key = some val)) = none := by
    refine List.find?_eq_none.mpr ?_
    intro x hx
    simpa using hno x hx
  rw [Del_of_completes d ctx env key val h, hfind]

/-- C5, refuted as stated: on the empty store, where no document carries the access
string "acc456", `RemoveByAccess("acc456")` called with a cancelled context returns the
error of the context. -/
theorem RemoveBy_absent_counterexample :
    emptyStore.docs = [] ∧
    (emptyStore.RemoveByAccess cancelledCtx (quietEnv "doc1") "acc456").1 =
      some (Error.ctx CtxErr.Canceled) := by
  decide

/-- C5, amended: in every store state and for every value `x` that no stored document
carries in its Access (respectively Code, Refresh) field, `RemoveByAccess(x)`
(respectively `RemoveByCode(x)`, `RemoveByRefresh(x)`) returns no error when the round
trip of the transaction completes, and the error of the round trip otherwise; in both
cases the store, the stored documents with it, is the same after the call as before. -/
theorem RemoveBy_absent (ts : tokenStore) (ctx : Context) (env : Env) (x : String) :
    ((∀ doc ∈ ts.docs, doc.data.Access ≠ x) →
      (ts.d.completes ctx env → ts.RemoveByAccess ctx env x = (none, ts)) ∧
      (∀ e, roundTrip (WithTimeout ctx env.now ts.d.timeout) env = some e →
        ts.RemoveByAccess ctx env x = (some e, ts)) ∧
      (ts.RemoveByAccess ctx env x).2 = ts) ∧
    ((∀ doc ∈ ts.docs, doc.data.Code ≠ x) →
      (ts.d.completes ctx env → ts.RemoveByCode ctx env x = (none, ts)) ∧
      (∀ e, roundTrip (WithTimeout ctx env.now ts.d.timeout) env = some e →
        ts.RemoveByCode ctx env x = (some e, ts)) ∧
      (ts.RemoveByCode ctx env x).2 = ts) ∧
    ((∀ doc ∈ ts.docs, doc.data.Refresh ≠ x) →
      (ts.d.completes ctx env → ts.RemoveByRefresh ctx env x = (none, ts)) ∧
      (∀ e, roundTrip (WithTimeout ctx env.now ts.d.timeout) env = some e →
        ts.RemoveByRefresh ctx env x = (some e, ts)) ∧
      (ts.RemoveByRefresh ctx env x).2 = ts) := by
  have key : ∀ (k : String) (v : Value), (∀ doc ∈ ts.d.docs, doc.data.field k ≠ some v) →
      (ts.d.completes ctx env → ts.d.Del ctx env k v = (none, ts.d)) ∧
      (∀ e, roundTrip (WithTimeout ctx env.now ts.d.timeout) env = some e →
        ts.d.Del ctx env k v = (some e, ts.d)) ∧
      (ts.d.Del ctx env k v).2 = ts.d := by
    intro k v hno
    refine ⟨fun hc => Del_absent ts.d ctx env k v hc hno,
      fun e he => Del_of_fails ts.d ctx env k v e he, ?_⟩
    rcases completes_or_fails ts.d ctx env with hc | ⟨e, he⟩
    · rw [Del_absent ts.d ctx env k v hc hno]
    · rw [Del_of_fails ts.d ctx env k v e he]
  refine ⟨fun hno => ?_, fun hno => ?_, fun hno => ?_⟩
  · obtain ⟨h1, h2, h3⟩ := key "Access" (Value.str x)
      (fun doc hdoc => by simpa [field_Access] using hno doc hdoc)
    refine ⟨fun hc => ?_, fun e he => ?_, ?_⟩
    · simp only [tokenStore.RemoveByAccess, keyAccess, h1 hc]
    · simp only [tokenStore.RemoveByAccess, keyAccess, h2 e he]
    · simp only [tokenStore.RemoveByAccess, keyAccess, h3]
  · obtain ⟨h1, h2, h3⟩ := key "Code" (Value.str x)
      (fun doc hdoc => by simpa [field_Code] using hno doc hdoc)
    refine ⟨fun hc => ?_, fun e he => ?_, ?_⟩
    · simp only [tokenStore.RemoveByCode, keyCode, h1 hc]
    · simp only [tokenStore.RemoveByCode, keyCode, h2 e he]
    · simp only [tokenStore.RemoveByCode, keyCode, h3]
  · obtain ⟨h1, h2, h3⟩ := key "Refresh" (Value.str x)
      (fun doc hdoc => by simpa [field_Refresh] using hno doc hdoc)
    refine ⟨fun hc => ?_, fun e he => ?_, ?_⟩
    · simp only [tokenStore.RemoveByRefresh, keyRefresh, h1 hc]
    · simp only [tokenStore.RemoveByRefresh, keyRefresh, h2 e he]
    · simp only [tokenStore.RemoveByRefresh, keyRefresh, h3]

theorem RemoveBy_absent_witness :
    (∀ doc ∈ rivalStore.docs, doc.data.Access ≠ "zzz") ∧
    rivalStore.d.completes Background (quietEnv "doc2") ∧
    rivalStore.RemoveByAccess Background (quietEnv "doc2") "zzz" = (none, rivalStore) :=
  ⟨by decide, by decide,
   ((RemoveBy_absent rivalStore Background (quietEnv "doc2") "zzz").1 (by decide)).1
     (by decide)⟩

/-! ## Deleting one document -/

theorem docs_nodup (d : database) : d.docs.Nodup :=
  List.Nodup.of_map Doc.ID (d.client d.collection).nodup

theorem eq_of_ID_eq (d : database) (x y : Doc) (hx : x ∈ d.docs) (hy : y ∈ d.docs)
    (h : x.ID = y.ID) : x = y :=
  List.inj_on_of_nodup_map (d.client d.collection).nodup hx hy h

/-- What a `Del` by key that returns no error does on a collection in which the first
document with the field is `doc`: the collection loses `doc` and nothing else, the other
collections and the configuration stay. -/
theorem Del_found (d d' : database) (ctx : Context) (env : Env) (key : String) (val : Value)
    (doc : Doc)
    (hfind : d.docs.find? (fun x => decide (x.data.field key = some val)) = some doc)
    (hdel : d.Del ctx env key val = (none, d')) :
    d'.docs = d.docs.erase doc ∧ d'.collection = d.collection ∧ d'.timeout = d.timeout ∧
      ∀ name, name ≠ d.collection → d'.client name = d.client name := by
  have hc := Del_success d d' ctx env key val hdel
  rw [Del_of_completes d ctx env key val hc, hfind] at hdel
  have hd : d' = _ := (Prod.mk.inj hdel).2.symm
  subst hd
  refine ⟨?_, rfl, rfl, ?_⟩
  · rw [delete_docs]
    exact filter_ID_ne_eq_erase d.docs doc (d.client d.collection).nodup
      (List.mem_of_find?_eq_some hfind)
  · intro name hname
    simp [Client.delete, Doc.Ref, Function.update_noteq hname]

/-- C8: in every store state and for every key and value that some stored document
carries, a `Del(key, value)` that returns no error removes exactly one document: a
stored document whose field `key` equals `value`. It is removed as a whole record: the
collection is the old one without it, one document shorter, no document under its
identifier is left, and a later `Get` for any field value that only it carried (its
Code, Access or Refresh among them) fails with `ErrTokenNotFound`. Every other document,
the other collections and the configuration of the adapter are unchanged. -/
theorem Del_removes_one (d d' : database) (ctx : Context) (env : Env) (key : String)
    (val : Value) (hex : ∃ doc ∈ d.docs, doc.data.field key = some val)
    (hdel : d.Del ctx env key val = (none, d')) :
    ∃ doc ∈ d.docs, doc.data.field key = some val ∧
      d'.docs = d.docs.erase doc ∧
      d'.docs.length + 1 = d.docs.length ∧
      doc ∉ d'.docs ∧ (∀ x ∈ d'.docs, x.ID ≠ doc.ID) ∧
      (∀ other ∈ d.docs, other ≠ doc → other ∈ d'.docs) ∧
      (∀ x ∈ d'.docs, x ∈ d.docs) ∧
      (∀ k v, (∀ other ∈ d.docs, other ≠ doc → other.data.field k ≠ some v) →
        ∀ ctx' env', d'.completes ctx' env' →
          d'.Get ctx' env' k v = (none, some Error.ErrTokenNotFound, d')) ∧
      d'.collection = d.collection ∧ d'.timeout = d.timeout ∧
      (∀ name, name ≠ d.collection → d'.client name = d.client name) := by
  obtain ⟨w, hw, hwf⟩ := hex
  cases hfind : d.docs.find? (fun x => decide (x.data.field key = some val)) with
  | none =>
    have := List.find?_eq_none.mp hfind w hw
    simp [hwf] at this
  | some doc =>
    have hmem : doc ∈ d.docs := List.mem_of_find?_eq_some hfind
    have hfield : doc.data.field key = some val := by
      simpa using List.find?_some hfind
    obtain ⟨hdocs, hcoll, htime, hframe⟩ := Del_found d d' ctx env key val doc hfind hdel
    have hnd := docs_nodup d
    have hiff : ∀ x, x ∈ d'.docs ↔ x ≠ doc ∧ x ∈ d.docs := by
      intro x
      rw [hdocs]
      exact hnd.mem_erase_iff
    refine ⟨doc, hmem, hfield, hdocs, ?_, ?_, ?_, ?_, ?_, ?_, hcoll, htime, hframe⟩
    · rw [hdocs, List.length_erase_of_mem hmem]
      have : 0 < d.docs.length := List.length_pos_of_mem hmem
      omega
    · exact fun h => ((hiff doc).mp h).1 rfl
    · intro x hx hid
      obtain ⟨hne, hxd⟩ := (hiff x).mp hx
      exact hne (eq_of_ID_eq d x doc hxd hmem hid)
    · exact fun other ho hne => (hiff other).mpr ⟨hne, ho⟩
    · exact fun x hx => ((hiff x).mp hx).2
    · intro k v hothers ctx' env' hc'
      refine Get_absent d' ctx' env' k v hc' ?_
      intro x hx
      obtain ⟨hne, hxd⟩ := (hiff x).mp hx
      exact hothers x hxd hne

theorem Del_removes_one_witness :
    (∃ doc ∈ rivalStore.d.docs, doc.data.field "Code" = some (Value.str "abc123")) ∧
    ∃ doc ∈ rivalStore.d.docs, doc.data.field "Code" = some (Value.str "abc123") ∧
      (rivalStore.d.Del Background (quietEnv "doc2") "Code" (Value.str "abc123")).2.docs =
        rivalStore.d.docs.erase doc := by
  have hex : ∃ doc ∈ rivalStore.d.docs, doc.data.field "Code" = some (Value.str "abc123") :=
    ⟨{ ID := "doc1", data := rivalToken }, by decide, by decide⟩
  obtain ⟨doc, hmem, hfield, hdocs, -⟩ :=
    Del_removes_one rivalStore.d
      (rivalStore.d.Del Background (quietEnv "doc2") "Code" (Value.str "abc123")).2
      Background (quietEnv "doc2") "Code" (Value.str "abc123") hex
      (Prod.ext (by decide) rfl)
  exact ⟨hex, doc, hmem, hfield, hdocs⟩

/-! ## Create, remove, then look up -/

/-- C6, refuted as stated: the store holds a token of another client under the refresh
string "ref789"; `Create` of a valid token with that refresh string and then
`RemoveByRefresh("ref789")` both succeed, yet `GetByRefresh("ref789")` then returns a
record without error: the removal took the other client's document. -/
theorem Create_Remove_GetByRefresh_counterexample :
    ¬ sampleToken.allFieldsZero ∧
    (rivalStore.Create Background (quietEnv "doc2") (TokenInfo.ptr sampleToken)).1 = none ∧
    (crowdedStore.RemoveByRefresh Background (quietEnv "doc3") sampleToken.Refresh).1 = none ∧
    ((crowdedStore.RemoveByRefresh Background (quietEnv "doc3") sampleToken.Refresh).2.GetByRefresh
        Background (quietEnv "doc4") sampleToken.Refresh).1 = TokenInfo.ptr sampleToken ∧
    ((crowdedStore.RemoveByRefresh Background (quietEnv "doc3") sampleToken.Refresh).2.GetByRefresh
        Background (quietEnv "doc4") sampleToken.Refresh).2.1 = none := by
  decide

/-- C6, amended: for a valid token `t` and a store in which no document carries the
refresh string of `t`, when `Create(t)` and then `RemoveByRefresh(t.Refresh)` return no
error and the round trip of the following `GetByRefresh(t.Refresh)` completes, that
call fails with `ErrTokenNotFound`. -/
theorem Create_Remove_GetByRefresh (ts ts1 ts2 : tokenStore) (ctx ctx1 ctx2 : Context)
    (env env1 env2 : Env) (t : Token) (hvalid : ¬ t.allFieldsZero)
    (hcreate : ts.Create ctx env (TokenInfo.ptr t) = (none, ts1))
    (hremove : ts1.RemoveByRefresh ctx1 env1 t.Refresh = (none, ts2))
    (huniq : ∀ doc ∈ ts.docs, doc.data.Refresh ≠ t.Refresh)
    (hget : ts2.d.completes ctx2 env2) :
    ts2.GetByRefresh ctx2 env2 t.Refresh =
      (TokenInfo.nilPtr, some Error.ErrTokenNotFound, ts2) := by
  obtain ⟨-, hnew, hdocs, -, -⟩ := Create_success ts ts1 ctx env t hvalid hcreate
  have hd1 : ts1.d.docs =
      ts.docs.orderedInsert Doc.le { ID := env.newID, data := t.stored } := hdocs
  have hdel : ts1.d.Del ctx1 env1 "Refresh" (Value.str t.Refresh) = (none, ts2.d) := by
    simp only [tokenStore.RemoveByRefresh, keyRefresh] at hremove
    have h1 := (Prod.mk.inj hremove).1
    have h2 := (Prod.mk.inj hremove).2
    rw [← h2]
    exact Prod.ext h1 rfl
  have hfind : ts1.d.docs.find?
      (fun x => decide (x.data.field "Refresh" = some (Value.str t.Refresh))) =
      some { ID := env.newID, data := t.stored } := by
    rw [hd1]
    refine find?_orderedInsert_new _ _ _ (by simp [field_Refresh, Token.stored]) ?_
    intro x hx
    simpa [field_Refresh] using huniq x hx
  obtain ⟨hd2, -, -, -⟩ := Del_found ts1.d ts2.d ctx1 env1 "Refresh" _ _ hfind hdel
  have hno : ∀ x ∈ ts2.d.docs, x.data.field "Refresh" ≠ some (Value.str t.Refresh) := by
    intro x hx
    rw [hd2] at hx
    obtain ⟨hne, hx1⟩ := (docs_nodup ts1.d).mem_erase_iff.mp hx
    rw [hd1] at hx1
    rcases (List.mem_orderedInsert Doc.le).mp hx1 with h | h
    · exact absurd h hne
    · simpa [field_Refresh] using huniq x h
  simp only [tokenStore.GetByRefresh, keyRefresh,
    Get_absent ts2.d ctx2 env2 "Refresh" _ hget hno]
  rfl

theorem Create_Remove_GetByRefresh_witness :
    (emptyStore.Create Background (quietEnv "doc1") (TokenInfo.ptr sampleToken)).1 = none ∧
    (((emptyStore.Create Background (quietEnv "doc1") (TokenInfo.ptr sampleToken)).2.RemoveByRefresh
        Background (quietEnv "doc2") "ref789").2.GetByRefresh
          Background (quietEnv "doc3") "ref789").2.1 = some Error.ErrTokenNotFound :=
  ⟨by decide,
   congrArg (fun r => r.2.1)
     (Create_Remove_GetByRefresh emptyStore _ _ Background Background Background
       (quietEnv "doc1") (quietEnv "doc2") (quietEnv "doc3") sampleToken (by decide)
       (Prod.ext (by decide) rfl) (Prod.ext (by decide) rfl)
       (by intro doc hdoc; cases hdoc) (by decide))⟩

/-! ## Queries for the empty string -/

/-- A record that a `Get` by key returns without error is the data of a stored document
that carries the value asked for in that field, as it reads back from the store. -/
theorem Get_returns_match (d : database) (ctx : Context) (env : Env) (key : String)
    (val : Value) (t : Token) (h : (d.Get ctx env key val).1 = some t)
    (herr : (d.Get ctx env key val).2.1 = none) :
    ∃ doc ∈ d.docs, doc.data.field key = some val ∧ doc.data.stored = t := by
  rcases completes_or_fails d ctx env with hc | ⟨e, he⟩
  · rw [Get_of_completes d ctx env key val hc] at h herr
    cases hfind : d.docs.find? (fun x => decide (x.data.field key = some val)) with
    | none => simp [hfind] at h
    | some doc =>
      simp only [hfind, Option.some.injEq] at h herr
      refine ⟨doc, List.mem_of_find?_eq_some hfind, by simpa using List.find?_some hfind, ?_⟩
      cases hb : doc.broken with
      | none => simpa [Doc.DataTo, hb] using h
      | some b => simp [Doc.DataTo, hb] at herr
  · rw [Get_of_fails d ctx env key val e he] at h
    cases h

/-- A document that a `Del` by key takes out of the collection carries the value asked
for in that field. -/
theorem Del_removes_match (d : database) (ctx : Context) (env : Env) (key : String)
    (val : Value) (x : Doc) (hx : x ∈ d.docs) (hgone : x ∉ (d.Del ctx env key val).2.docs) :
    x.data.field key = some val := by
  rcases completes_or_fails d ctx env with hc | ⟨e, he⟩
  · cases hfind : d.docs.find? (fun x => decide (x.data.field key = some val)) with
    | none =>
      rw [Del_of_completes d ctx env key val hc, hfind] at hgone
      exact absurd hx hgone
    | some doc =>
      have hdel : d.Del ctx env key val = (none, (d.Del ctx env key val).2) := by
        rw [Del_of_completes d ctx env key val hc, hfind]
      obtain ⟨hdocs, -, -, -⟩ := Del_found d _ ctx env key val doc hfind hdel
      rw [hdocs] at hgone
      have hxd : x = doc := by
        by_contra hne
        exact hgone ((docs_nodup d).mem_erase_iff.mpr ⟨hne, hx⟩)
      subst hxd
      simpa using List.find?_some hfind
  · rw [Del_of_fails d ctx env key val e he] at hgone
    exact absurd hx hgone

/-- C7, refuted as stated: the store holds one record, with access material only and
the empty string as its code; `GetByCode("")` returns that record without error, and
`RemoveByCode("")` deletes it. -/
theorem empty_key_counterexample :
    accessOnlyStore.docs = [{ ID := "doc1", data := accessOnlyToken }] ∧
    accessOnlyToken.Code = "" ∧
    (accessOnlyStore.GetByCode Background (quietEnv "doc2") "").1 =
      TokenInfo.ptr accessOnlyToken ∧
    (accessOnlyStore.GetByCode Background (quietEnv "doc2") "").2.1 = none ∧
    (accessOnlyStore.RemoveByCode Background (quietEnv "doc2") "").1 = none ∧
    (accessOnlyStore.RemoveByCode Background (quietEnv "doc2") "").2.docs = [] := by
  decide

/-- C7, amended: a record is matched by a query on a key field only through the value it
holds there, the empty string being a value like any other. In every store state and for
every value `v`, a record that `GetByCode(v)` (`GetByAccess(v)`, `GetByRefresh(v)`)
returns without error has Code (Access, Refresh) equal to `v`, and a document that
`RemoveByCode(v)` (`RemoveByAccess(v)`, `RemoveByRefresh(v)`) deletes has Code (Access,
Refresh) equal to `v`; so a record with an empty key field is returned without error or
deleted by the query for the empty string only, never by a query for a non-empty value.
Of a record returned together with an error nothing is said: where `DataTo` fails, `Get`
returns the struct as far as it was filled in. -/
theorem key_queries_match (ts : tokenStore) (ctx : Context) (env : Env) (v : String) :
    (∀ t, (ts.GetByCode ctx env v).1 = TokenInfo.ptr t →
      (ts.GetByCode ctx env v).2.1 = none → t.Code = v) ∧
    (∀ t, (ts.GetByAccess ctx env v).1 = TokenInfo.ptr t →
      (ts.GetByAccess ctx env v).2.1 = none → t.Access = v) ∧
    (∀ t, (ts.GetByRefresh ctx env v).1 = TokenInfo.ptr t →
      (ts.GetByRefresh ctx env v).2.1 = none → t.Refresh = v) ∧
    (∀ doc ∈ ts.docs, doc ∉ (ts.RemoveByCode ctx env v).2.docs → doc.data.Code = v) ∧
    (∀ doc ∈ ts.docs, doc ∉ (ts.RemoveByAccess ctx env v).2.docs → doc.data.Access = v) ∧
    (∀ doc ∈ ts.docs, doc ∉ (ts.RemoveByRefresh ctx env v).2.docs → doc.data.Refresh = v) := by
  have hget : ∀ (k : String) (t : Token),
      asTokenInfo (ts.d.Get ctx env k (Value.str v)).1 = TokenInfo.ptr t →
      (ts.d.Get ctx env k (Value.str v)).2.1 = none →
      ∃ doc ∈ ts.d.docs, doc.data.field k = some (Value.str v) ∧ doc.data.stored = t := by
    intro k t h herr
    cases hg : (ts.d.Get ctx env k (Value.str v)).1 with
    | none => simp [hg, asTokenInfo] at h
    | some u =>
      simp only [hg, asTokenInfo, TokenInfo.ptr.injEq] at h
      subst h
      exact Get_returns_match ts.d ctx env k _ u hg herr
  refine ⟨fun t h herr => ?_, fun t h herr => ?_, fun t h herr => ?_, fun doc hd hg => ?_,
    fun doc hd hg => ?_, fun doc hd hg => ?_⟩
  · obtain ⟨doc, -, hf, rfl⟩ := hget "Code" t h herr
    simpa [field_Code] using hf
  · obtain ⟨doc, -, hf, rfl⟩ := hget "Access" t h herr
    simpa [field_Access] using hf
  · obtain ⟨doc, -, hf, rfl⟩ := hget "Refresh" t h herr
    simpa [field_Refresh] using hf
  · simpa [field_Code] using Del_removes_match ts.d ctx env "Code" _ doc hd hg
  · simpa [field_Access] using Del_removes_match ts.d ctx env "Access" _ doc hd hg
  · simpa [field_Refresh] using Del_removes_match ts.d ctx env "Refresh" _ doc hd hg

theorem key_queries_match_witness :
    (accessOnlyStore.GetByAccess Background (quietEnv "doc2") "acc456").1 =
      TokenInfo.ptr accessOnlyToken ∧
    (accessOnlyStore.GetByAccess Background (quietEnv "doc2") "acc456").2.1 = none ∧
    accessOnlyToken.Access = "acc456" ∧
    (brokenStore.GetByCode Background (quietEnv "doc2") "abc123").1 =
      TokenInfo.ptr NewToken ∧
    (brokenStore.GetByCode Background (quietEnv "doc2") "abc123").2.1 =
      some (Error.backend "firestore: cannot set type time.Duration to string") :=
  ⟨by decide, by decide,
   (key_queries_match accessOnlyStore Background (quietEnv "doc2") "acc456").2.1
     accessOnlyToken (by decide) (by decide), by decide, by decide⟩

end Oauth2Firestore
